import Mathlib

/-!
Shallow embedding of the country-api repository (src/controller.js,
src/utils.js, src/database.js) and proofs about it.

Conventions of the embedding:
* JavaScript values flowing through `replaceUndefined` are modelled by the
  inductive type `JsVal`; `JsVal.vundef` is JavaScript `undefined`,
  `JsVal.vnull` is `null`, objects are association lists of fields.
* Numbers are modelled by `Rat` (JS floating point is treated as exact
  rational arithmetic; none of the verified claims depends on rounding).
* SQL `NULL` is `Option.none`; the `countries` table is a `List Row` in
  insertion order.  MySQL `ORDER BY estimated_gdp DESC` sorts `NULL` last,
  which the comparator `gdpDescLe` encodes.
* Fallible stages (fetch, parse, per-row execute) are modelled by explicit
  outcome parameters; a thrown JS exception caught by the surrounding
  `try/catch` is a `failure` outcome.
-/

/-- JavaScript values as seen by `replaceUndefined` (src/utils.js). -/
inductive JsVal where
  | vundef : JsVal
  | vnull : JsVal
  | vnum : Rat → JsVal
  | vstr : String → JsVal
  | vbool : Bool → JsVal
  | varr : List JsVal → JsVal
  | vobj : List (String × JsVal) → JsVal

mutual
/-- Body of the `for (const key in obj)` loop in `replaceUndefined`
(src/utils.js lines 37-51), applied to one stored value: `undefined`
becomes `null`, arrays are mapped elementwise, nested non-null objects are
normalized recursively, other values are kept. -/
def procField : JsVal → JsVal
  | .vundef => .vnull
  | .varr xs => .varr (procItems xs)
  | .vobj fs => .vobj (procFields fs)
  | v => v

/-- Body of the `map` over array items (src/utils.js lines 41-47): objects
and arrays (both have JS `typeof "object"`) are normalized recursively via
`replaceUndefined(item)`, `undefined` items become `null`, others are kept. -/
def procItem : JsVal → JsVal
  | .vobj fs => .vobj (procFields fs)
  | .varr xs => .varr (procFieldsArr xs)
  | .vundef => .vnull
  | v => v

/-- The first loop of `replaceUndefined` over an object's own fields. -/
def procFields : List (String × JsVal) → List (String × JsVal)
  | [] => []
  | (k, v) :: rest => (k, procField v) :: procFields rest

/-- Elementwise `map` with `procItem` over an array value. -/
def procItems : List JsVal → List JsVal
  | [] => []
  | x :: rest => procItem x :: procItems rest

/-- `replaceUndefined` recursing into an array argument: the `for-in` loop
over an array iterates its indices, so each element goes through the same
per-value body `procField`. -/
def procFieldsArr : List JsVal → List JsVal
  | [] => []
  | x :: rest => procField x :: procFieldsArr rest
end

/-- JS `key in obj` membership test on an object's field list. -/
def hasKey (fs : List (String × JsVal)) (k : String) : Bool :=
  fs.any fun p => p.1 == k

/-- JS property read `obj[key]` on an object's field list. -/
def getKey : List (String × JsVal) → String → Option JsVal
  | [], _ => none
  | (k, v) :: rest, key => if k == key then some v else getKey rest key

/-- Second loop of `replaceUndefined` (src/utils.js lines 54-58): every
required key not already present is added with value `null`. -/
def addRequired : List (String × JsVal) → List String → List (String × JsVal)
  | fs, [] => fs
  | fs, k :: rest =>
      addRequired (if hasKey fs k then fs else fs ++ [(k, .vnull)]) rest

/-- `replaceUndefined(obj, requiredKeys)` from src/utils.js lines 34-62.
The guard `obj && typeof obj === "object"` admits objects and arrays;
every other value is returned unchanged.  (For an array argument the JS
code would also attach required keys as named array properties; the list
model cannot represent named properties on arrays, and every call with a
non-empty key list in the repository passes an object, so required-key
addition is modelled on objects only.) -/
def replaceUndefined (v : JsVal) (requiredKeys : List String) : JsVal :=
  match v with
  | .vobj fs => .vobj (addRequired (procFields fs) requiredKeys)
  | .varr xs => .varr (procFieldsArr xs)
  | v => v

mutual
/-- No `undefined` occurs anywhere inside the value. -/
def noUndef : JsVal → Bool
  | .vundef => false
  | .vnull => true
  | .vnum _ => true
  | .vstr _ => true
  | .vbool _ => true
  | .varr xs => noUndefList xs
  | .vobj fs => noUndefFields fs

/-- No `undefined` occurs anywhere inside a list of values. -/
def noUndefList : List JsVal → Bool
  | [] => true
  | x :: rest => noUndef x && noUndefList rest

/-- No `undefined` occurs anywhere inside a field list. -/
def noUndefFields : List (String × JsVal) → Bool
  | [] => true
  | (_, v) :: rest => noUndef v && noUndefFields rest
end

/-- JS property read on an arbitrary value: only objects yield fields. -/
def objGet (v : JsVal) (k : String) : Option JsVal :=
  match v with
  | .vobj fs => getKey fs k
  | _ => none

/-- JS truthiness of a string-or-null value: `null` and the empty string
are falsy, every other string is truthy. -/
def jsTruthyStr : Option String → Bool
  | none => false
  | some s => !(s == "")

/-- Lookup `exchangeRateData[code]` in the parsed rates table. -/
def lookupRate : List (String × Rat) → String → Option Rat
  | [], _ => none
  | (c, r) :: rest, code => if c == code then some r else lookupRate rest code

/-- The `exchange_rate` ternary of src/controller.js lines 116-120:
`currencyCode ? (tbl[currencyCode] ? tbl[currencyCode] : null) : null`.
A falsy looked-up number (exactly 0 over `Rat`; JS `NaN` has no rational
counterpart) is replaced by `null`. -/
def exchange_rateOf (rates : List (String × Rat)) (currencyCode : Option String) :
    Option Rat :=
  if jsTruthyStr currencyCode then
    match currencyCode.bind (lookupRate rates) with
    | some r => if r = 0 then none else some r
    | none => none
  else none

/-- The `estimated_gdp` ternary of src/controller.js lines 123-128:
`currencyCode ? (exchange_rate ? population * (randomNumber / exchange_rate) : null) : 0`.
`randomNumber` is the integer produced by the `Math.floor` expression on
line 123; `exchange_rate` is the value computed by `exchange_rateOf`. -/
def estimated_gdpOf (population : Rat) (currencyCode : Option String)
    (exchange_rate : Option Rat) (randomNumber : Int) : Option Rat :=
  if jsTruthyStr currencyCode then
    match exchange_rate with
    | some r => if r = 0 then none else some (population * ((randomNumber : Rat) / r))
    | none => none
  else some 0

/-- `Math.floor(Math.random() * (2000 - 1000 + 1)) + 1000` from
src/controller.js line 123, as a function of the `Math.random()` draw. -/
def randomScalar (u : Rat) : Int :=
  ⌊u * (2000 - 1000 + 1)⌋ + 1000

/-- One currency descriptor from the REST Countries payload. -/
structure CurrencyDesc where
  code : Option String
deriving DecidableEq

/-- One raw country record after normalization: `replaceUndefined` turns a
missing or `undefined` field into `null`, so each field is an `Option`
(`none` is `null`).  Field payloads are assumed well-typed (the two claims
about ill-typed payloads are settled on `JsVal` directly). -/
structure RawCountry where
  name : Option String
  capital : Option String
  region : Option String
  population : Option Rat
  currencies : Option (List CurrencyDesc)
  flag : Option String
deriving DecidableEq

/-- `currencies?.[0]?.code ?? null` from src/controller.js line 113. -/
def currencyCodeOf : Option (List CurrencyDesc) → Option String
  | some (c :: _) => c.code
  | _ => none

/-- JS numeric coercion applied to `population` by the multiplication on
line 126: `null` coerces to 0. -/
def toNumber : Option Rat → Rat
  | none => 0
  | some q => q

/-- One persisted row of the `countries` table (src/controller.js lines
67-81).  The `id` auto-increment column is omitted: no claim mentions it.
`name` is `NOT NULL UNIQUE`; nullable columns are `Option`. -/
structure Row where
  name : String
  capital : Option String
  region : Option String
  population : Option Rat
  currency_code : Option String
  exchange_rate : Option Rat
  estimated_gdp : Option Rat
  flag_url : Option String
  last_refreshed_at : Nat
  created_at : Nat
deriving DecidableEq

/-- The VALUES tuple bound by `pool.execute` (src/controller.js lines
152-162); `name` is still `Option` because a normalized record may carry a
`null` name, which the `NOT NULL` column then rejects. -/
structure NewRecord where
  name : Option String
  capital : Option String
  region : Option String
  population : Option Rat
  currency_code : Option String
  exchange_rate : Option Rat
  estimated_gdp : Option Rat
  flag_url : Option String
  last_refreshed_at : Nat
deriving DecidableEq

/-- The per-iteration derivation of src/controller.js lines 100-131:
normalize, destructure, extract the currency code, look up the rate,
estimate the GDP and stamp the refresh time. -/
def mkRecord (r : RawCountry) (rates : List (String × Rat)) (randomNumber : Int)
    (now : Nat) : NewRecord :=
  let code := currencyCodeOf r.currencies
  { name := r.name
    capital := r.capital
    region := r.region
    population := r.population
    currency_code := code
    exchange_rate := exchange_rateOf rates code
    estimated_gdp := estimated_gdpOf (toNumber r.population) code (exchange_rateOf rates code) randomNumber
    flag_url := r.flag
    last_refreshed_at := now }

/-- `INSERT ... ON DUPLICATE KEY UPDATE` (src/controller.js lines 135-149)
against the unique `name` key: if a row with the same name exists, every
listed column is overwritten and `created_at` is untouched; otherwise a new
row is appended with `created_at` defaulted to the current timestamp. -/
def upsert (table : List Row) (nm : String) (rec : NewRecord) (now : Nat) :
    List Row :=
  if ∃ row ∈ table, row.name = nm then
    table.map fun row =>
      if row.name = nm then
        { name := nm
          capital := rec.capital
          region := rec.region
          population := rec.population
          currency_code := rec.currency_code
          exchange_rate := rec.exchange_rate
          estimated_gdp := rec.estimated_gdp
          flag_url := rec.flag_url
          last_refreshed_at := rec.last_refreshed_at
          created_at := row.created_at }
      else row
  else
    table ++ [{ name := nm
                capital := rec.capital
                region := rec.region
                population := rec.population
                currency_code := rec.currency_code
                exchange_rate := rec.exchange_rate
                estimated_gdp := rec.estimated_gdp
                flag_url := rec.flag_url
                last_refreshed_at := rec.last_refreshed_at
                created_at := now }]

/-- Parsed body of the REST Countries response.  `parseError` models a body
`response.json()` cannot decode (the surrounding try/catch then reports a
500).  `nonArray` models a body that parses to a JSON value that is not an
array and not a string (e.g. the JSON error object a non-2xx response
carries): `countriesData.length` is then `undefined`, so the `for` loop of
src/controller.js line 99 never runs. -/
inductive CountriesBody where
  | parseError : CountriesBody
  | arr : List RawCountry → CountriesBody
  | nonArray : CountriesBody
deriving DecidableEq

/-- Parsed body of the exchange-rate response: either undecodable or a
`rates` table mapping currency codes to numbers. -/
inductive RatesBody where
  | parseError : RatesBody
  | rates : List (String × Rat) → RatesBody
deriving DecidableEq

/-- Outcome of one `fetch` call: the promise either rejects (transport
error, which the code's try/catch turns into a 500) or resolves to a
response with an HTTP status and a body.  src/controller.js never reads
the status. -/
inductive Fetch (β : Type) where
  | transportError : Fetch β
  | response : Nat → β → Fetch β

/-- What the caller of POST /countries observes: `success` is the 201
`data refreshed` reply (line 182), `failure` is the 500 reply produced by
the catch block (lines 183-187). -/
inductive RefreshOutcome where
  | success : RefreshOutcome
  | failure : RefreshOutcome
deriving DecidableEq

/-- Environment of one refresh run: the two fetch outcomes, which
`pool.execute` calls fail (`failsAt i` is true when the i-th per-record
insert throws for an external reason), the `Math.random()` draws, the
current time, and whether `generateSummaryImage` throws. -/
structure RunEnv where
  countriesFetch : Fetch CountriesBody
  ratesFetch : Fetch RatesBody
  failsAt : Nat → Bool
  urand : Nat → Rat
  now : Nat
  renderFails : Bool

/-- The `for` loop of src/controller.js lines 99-163: records are processed
strictly in source order; the i-th iteration derives the record and runs one
upsert.  The execute throws (ending the run, second component `false`) when
the environment says so or when the record's `name` is `null` (the `NOT
NULL` column rejects it); rows upserted by earlier iterations are kept. -/
def runLoop (failsAt : Nat → Bool) (urand : Nat → Rat) (now : Nat)
    (rates : List (String × Rat)) :
    List Row → List RawCountry → Nat → List Row × Bool
  | table, [], _ => (table, true)
  | table, r :: rest, i =>
      if failsAt i then (table, false)
      else
        match (mkRecord r rates (randomScalar (urand i)) now).name with
        | none => (table, false)
        | some nm =>
            runLoop failsAt urand now rates
              (upsert table nm (mkRecord r rates (randomScalar (urand i)) now) now)
              rest (i + 1)

/-- MySQL comparator realizing `ORDER BY estimated_gdp DESC`: in MySQL,
`NULL` is the lowest value, so a descending sort puts `NULL` rows last.
`gdpDescLe a b` says `a` may come before `b`. -/
def gdpDescLe (a b : Row) : Bool :=
  match a.estimated_gdp, b.estimated_gdp with
  | _, none => true
  | none, some _ => false
  | some x, some y => decide (y ≤ x)

/-- The result set of `ORDER BY estimated_gdp DESC` over the table. -/
def sortGdpDesc (rows : List Row) : List Row :=
  rows.mergeSort gdpDescLe

/-- The top-5 query of src/controller.js lines 170-175:
`SELECT name, estimated_gdp FROM countries ORDER BY estimated_gdp DESC LIMIT 5`. -/
def top5Of (table : List Row) : List (String × Option Rat) :=
  ((sortGdpDesc table).take 5).map fun r => (r.name, r.estimated_gdp)

/-- `postCountries` (src/controller.js lines 64-188) as a function from the
initial table and the run environment to the final table and the observed
outcome.  Control flow follows the source: table creation (a no-op on an
existing table), the two fetches, the two body parses, the per-record loop,
the read-back aggregates and the summary render; any thrown error reaches
the catch block, which replies 500 with the rows committed so far kept. -/
def postCountriesModel (table : List Row) (e : RunEnv) :
    List Row × RefreshOutcome :=
  match e.countriesFetch with
  | .transportError => (table, .failure)
  | .response _ cbody =>
    match e.ratesFetch with
    | .transportError => (table, .failure)
    | .response _ rbody =>
      match cbody with
      | .parseError => (table, .failure)
      | .nonArray =>
        match rbody with
        | .parseError => (table, .failure)
        | .rates _ =>
            if e.renderFails then (table, .failure) else (table, .success)
      | .arr recs =>
        match rbody with
        | .parseError => (table, .failure)
        | .rates rateTbl =>
            let r := runLoop e.failsAt e.urand e.now rateTbl table recs 0
            if r.2 then
              if e.renderFails then (r.1, .failure) else (r.1, .success)
            else (r.1, .failure)

/-- The table state left behind by one refresh run, whatever its outcome. -/
def applyRun (table : List Row) (e : RunEnv) : List Row :=
  (postCountriesModel table e).1

/-- The `GET /countries` handler (src/controller.js lines 13-55): optional
region and currency filters (a falsy query value adds no condition), then
an optional GDP-descending sort when `sort === "gdp_desc"`. -/
def getCountriesModel (table : List Row)
    (region currency sortQ : Option String) : List Row :=
  let rows := table.filter fun r =>
    (if jsTruthyStr region then r.region == region else true) &&
    (if jsTruthyStr currency then r.currency_code == currency else true)
  if sortQ == some "gdp_desc" then sortGdpDesc rows else rows

/-- The `GET /status` handler (src/controller.js lines 196-204): it reads
all rows and dereferences `row[0].last_refreshed_at` with no empty-table
guard, so on an empty table the property access on `undefined` throws a
TypeError; otherwise it reports the row count and the first row's
`last_refreshed_at`. -/
def getStatusModel (table : List Row) : Except String (Nat × Nat) :=
  match table with
  | [] => .error "TypeError"
  | r :: rest => .ok ((r :: rest).length, r.last_refreshed_at)

/-- The unique-name invariant of the `countries` table. -/
def namesNodup (table : List Row) : Prop :=
  (table.map Row.name).Nodup

/-- The ordering C6 claims of every GDP-descending listing: a null
`estimated_gdp` is never followed by a non-null one, and non-null values
are non-increasing. -/
def gdpOrdered (a b : Option Rat) : Prop :=
  (a = none → b = none) ∧ ∀ x y, a = some x → b = some y → y ≤ x

/-! ## Concrete fixtures used to instantiate the theorems -/

/-- A persisted row for France. -/
def rowFrance : Row :=
  ⟨"France", some "Paris", some "Europe", some 67000000, some "EUR",
   some 1, some 100, some "flag-fr", 1, 1⟩

/-- A persisted row for Ghana. -/
def rowGhana : Row :=
  ⟨"Ghana", some "Accra", some "Africa", some 30000000, some "GHS",
   none, none, some "flag-gh", 1, 1⟩

/-- Fresh values for France as bound by a later refresh. -/
def recFrance : NewRecord :=
  ⟨some "France", some "Paris", some "Europe", some 68000000, some "EUR",
   some 2, some 200, some "flag-fr2", 7⟩

/-- A raw France record with no currency list. -/
def rawFrance : RawCountry :=
  ⟨some "France", some "Paris", some "Europe", some 5, none, some "flag-fr"⟩

/-- A second raw record with the same name and different payload. -/
def rawFranceBis : RawCountry :=
  ⟨some "France", some "Lyon", some "Europe", some 6, none, some "flag-fr3"⟩

/-- A run whose country fetch returns an empty directory. -/
def envEmptyFetch : RunEnv :=
  ⟨.response 200 (.arr []), .response 200 (.rates []),
   fun _ => false, fun _ => 0, 5, false⟩

/-- A run whose country fetch mentions France twice. -/
def envFranceTwice : RunEnv :=
  ⟨.response 200 (.arr [rawFrance, rawFranceBis]), .response 200 (.rates []),
   fun _ => false, fun _ => 0, 5, false⟩

/-! ## Helper lemmas about the normalizer -/

/-- Joint strong induction: the three normalization passes eliminate every
occurrence of `undefined`. -/
theorem noUndef_proc_aux : ∀ n : Nat,
    (∀ v : JsVal, sizeOf v < n →
      noUndef (procField v) = true ∧ noUndef (procItem v) = true) ∧
    (∀ xs : List JsVal, sizeOf xs < n →
      noUndefList (procItems xs) = true ∧ noUndefList (procFieldsArr xs) = true) ∧
    (∀ fs : List (String × JsVal), sizeOf fs < n →
      noUndefFields (procFields fs) = true) := by
  intro n
  induction n with
  | zero =>
      refine ⟨?_, ?_, ?_⟩ <;> intro v hv <;> omega
  | succ n ih =>
      obtain ⟨ihv, ihl, ihf⟩ := ih
      refine ⟨?_, ?_, ?_⟩
      · intro v hv
        cases v with
        | vundef => simp [procField, procItem, noUndef]
        | vnull => simp [procField, procItem, noUndef]
        | vnum q => simp [procField, procItem, noUndef]
        | vstr s => simp [procField, procItem, noUndef]
        | vbool b => simp [procField, procItem, noUndef]
        | varr xs =>
            have hxs : sizeOf xs < n := by
              simp only [JsVal.varr.sizeOf_spec] at hv; omega
            have := ihl xs hxs
            simp [procField, procItem, noUndef, this.1, this.2]
        | vobj fs =>
            have hfs : sizeOf fs < n := by
              simp only [JsVal.vobj.sizeOf_spec] at hv; omega
            have := ihf fs hfs
            simp [procField, procItem, noUndef, this]
      · intro xs hxs
        cases xs with
        | nil => simp [procItems, procFieldsArr, noUndefList]
        | cons x rest =>
            have hx : sizeOf x < n := by
              simp only [List.cons.sizeOf_spec] at hxs; omega
            have hrest : sizeOf rest < n := by
              simp only [List.cons.sizeOf_spec] at hxs; omega
            have h1 := ihv x hx
            have h2 := ihl rest hrest
            simp [procItems, procFieldsArr, noUndefList, h1.1, h1.2, h2.1, h2.2]
      · intro fs hfs
        cases fs with
        | nil => simp [procFields, noUndefFields]
        | cons p rest =>
            obtain ⟨k, v⟩ := p
            have hv : sizeOf v < n := by
              simp only [List.cons.sizeOf_spec, Prod.mk.sizeOf_spec] at hfs; omega
            have hrest : sizeOf rest < n := by
              simp only [List.cons.sizeOf_spec] at hfs; omega
            have h1 := ihv v hv
            have h2 := ihf rest hrest
            simp [procFields, noUndefFields, h1.1, h2]

/-- The field pass of the normalizer leaves no `undefined` behind. -/
theorem noUndefFields_procFields (fs : List (String × JsVal)) :
    noUndefFields (procFields fs) = true :=
  (noUndef_proc_aux (sizeOf fs + 1)).2.2 fs (Nat.lt_succ_self _)

/-- The array pass of the normalizer leaves no `undefined` behind. -/
theorem noUndefList_procFieldsArr (xs : List JsVal) :
    noUndefList (procFieldsArr xs) = true :=
  ((noUndef_proc_aux (sizeOf xs + 1)).2.1 xs (Nat.lt_succ_self _)).2

/-- Appending a `null`-valued field preserves freedom from `undefined`. -/
theorem noUndefFields_append_vnull (fs : List (String × JsVal)) (k : String)
    (h : noUndefFields fs = true) :
    noUndefFields (fs ++ [(k, .vnull)]) = true := by
  induction fs with
  | nil => simp [noUndefFields, noUndef]
  | cons p ps ih =>
      obtain ⟨k', v'⟩ := p
      simp only [noUndefFields, Bool.and_eq_true] at h
      simpa [noUndefFields, h.1] using ih h.2

/-- Adding missing required keys preserves freedom from `undefined`. -/
theorem noUndefFields_addRequired (fs : List (String × JsVal))
    (keys : List String) (h : noUndefFields fs = true) :
    noUndefFields (addRequired fs keys) = true := by
  induction keys generalizing fs with
  | nil => simpa [addRequired] using h
  | cons k rest ih =>
      simp only [addRequired]
      split
      · exact ih fs h
      · exact ih _ (noUndefFields_append_vnull fs k h)

/-- A key once present stays present through `addRequired`. -/
theorem hasKey_addRequired_of_hasKey (fs : List (String × JsVal))
    (keys : List String) (k : String) (h : hasKey fs k = true) :
    hasKey (addRequired fs keys) k = true := by
  induction keys generalizing fs with
  | nil => simpa [addRequired] using h
  | cons k' rest ih =>
      simp only [addRequired]
      split
      · exact ih fs h
      · refine ih _ ?_
        simp [hasKey, List.any_append] at h ⊢
        exact Or.inl h

/-- After `addRequired`, every required key is present. -/
theorem hasKey_addRequired (fs : List (String × JsVal)) (keys : List String)
    (k : String) (hk : k ∈ keys) : hasKey (addRequired fs keys) k = true := by
  induction keys generalizing fs with
  | nil => cases hk
  | cons k' rest ih =>
      simp only [addRequired]
      rcases List.mem_cons.mp hk with h | h
      · subst h
        split
        · exact hasKey_addRequired_of_hasKey _ _ _ (by assumption)
        · refine hasKey_addRequired_of_hasKey _ _ _ ?_
          simp [hasKey, List.any_append]
      · exact ih _ h

/-- A present key can be read. -/
theorem getKey_of_hasKey (fs : List (String × JsVal)) (k : String)
    (h : hasKey fs k = true) : ∃ v, getKey fs k = some v := by
  induction fs with
  | nil => simp [hasKey] at h
  | cons p rest ih =>
      obtain ⟨k', v'⟩ := p
      by_cases hk : k' == k
      · exact ⟨v', by simp [getKey, hk]⟩
      · simp only [hasKey, List.any_cons, Bool.or_eq_true] at h
        rcases h with h | h
        · exact absurd h (by simpa using hk)
        · obtain ⟨v, hv⟩ := ih h
          exact ⟨v, by simp [getKey, hk, hv]⟩

/-- Every value stored in an `undefined`-free field list is
`undefined`-free. -/
theorem noUndef_getKey (fs : List (String × JsVal)) (k : String) (v : JsVal)
    (hfs : noUndefFields fs = true) (hget : getKey fs k = some v) :
    noUndef v = true := by
  induction fs with
  | nil => simp [getKey] at hget
  | cons p rest ih =>
      obtain ⟨k', v'⟩ := p
      simp only [noUndefFields, Bool.and_eq_true] at hfs
      by_cases hk : k' == k
      · simp only [getKey, hk, if_pos] at hget
        cases hget
        exact hfs.1
      · simp only [getKey, hk] at hget
        exact ih hfs.2 (by simpa [hk] using hget)

/-- A value free of `undefined` is not `undefined`. -/
theorem ne_vundef_of_noUndef (v : JsVal) (h : noUndef v = true) :
    v ≠ JsVal.vundef := by
  intro hv
  subst hv
  simp [noUndef] at h

/-! ## Claim theorems about the normalizer -/

/-- C2.  Normalization is total and always succeeds: for every input object
and every key in the required-field list, `replaceUndefined` returns an
object in which that key is present and non-undefined; it recurses into
nested object and array values replacing every undefined leaf with null
(`noUndef` holds of the result), and — being a total Lean function — it
never raises an error. -/
theorem replaceUndefined_required_total (fs : List (String × JsVal))
    (keys : List String) (k : String) (hk : k ∈ keys) :
    (∃ w, objGet (replaceUndefined (.vobj fs) keys) k = some w ∧
      w ≠ JsVal.vundef) ∧
    noUndef (replaceUndefined (.vobj fs) keys) = true := by
  have hfields : noUndefFields (addRequired (procFields fs) keys) = true :=
    noUndefFields_addRequired _ _ (noUndefFields_procFields fs)
  constructor
  · have hhas : hasKey (addRequired (procFields fs) keys) k = true :=
      hasKey_addRequired _ _ _ hk
    obtain ⟨w, hw⟩ := getKey_of_hasKey _ _ hhas
    refine ⟨w, ?_, ne_vundef_of_noUndef w (noUndef_getKey _ _ _ hfields hw)⟩
    simpa [replaceUndefined, objGet] using hw
  · simpa [replaceUndefined, noUndef] using hfields

/-- Witness for C2 at a concrete nested input: the required key `capital`
is absent from the raw record and present (and non-undefined) afterwards,
and the normalized record contains no `undefined` anywhere. -/
theorem replaceUndefined_required_total_witness :
    (∃ w, objGet (replaceUndefined
        (.vobj [("name", .vundef),
                ("currencies", .varr [.vundef, .vobj [("code", .vundef)]])])
        ["name", "capital"]) "capital" = some w ∧ w ≠ JsVal.vundef) ∧
    noUndef (replaceUndefined
        (.vobj [("name", .vundef),
                ("currencies", .varr [.vundef, .vobj [("code", .vundef)]])])
        ["name", "capital"]) = true :=
  replaceUndefined_required_total _ _ "capital" (by simp)

/-- C10.  For every input that is not a non-null object — `null`,
`undefined`, a number, a string or a boolean — `replaceUndefined` returns
the input unchanged and adds none of the required keys, so the
required-field guarantee holds only for object inputs. -/
theorem replaceUndefined_nonObject_id (keys : List String) :
    replaceUndefined .vnull keys = .vnull ∧
    replaceUndefined .vundef keys = .vundef ∧
    (∀ q : Rat, replaceUndefined (.vnum q) keys = .vnum q) ∧
    (∀ s : String, replaceUndefined (.vstr s) keys = .vstr s) ∧
    (∀ b : Bool, replaceUndefined (.vbool b) keys = .vbool b) :=
  ⟨rfl, rfl, fun _ => rfl, fun _ => rfl, fun _ => rfl⟩

/-! ## Claim theorems about the GDP estimator -/

/-- C1 counterexample.  The claim as stated fails on the code at two
concrete inputs.  First, the currency code can be present but empty: the
empty string is falsy in JS, so with code `""` (present) and a rate table
with no entry for it (rate unavailable) the estimator returns 0, where the
claim demands null.  Second, a rate of 0 is present in the table, yet the
estimator returns null, where the claim demands
`population * (r / rate)`, a non-null number, for some r in [1000, 2000]. -/
theorem estimateGdp_counterexample :
    estimated_gdpOf 5 (some "") (exchange_rateOf [] (some "")) 1500
      = some 0 ∧
    estimated_gdpOf 7 (some "USD") (exchange_rateOf [("USD", 0)] (some "USD")) 1500
      = none := by
  constructor <;> rfl

/-- C1 as amended.  For every population, currency code and rate table:
if the currency code is null or the empty string the result is 0; if the
code is a non-empty string but the rate is unavailable — absent from the
table or present with value 0 (both falsy in JS) — the result is null; if
the code is non-empty and the table holds a non-zero rate, the result is
`population * (randomNumber / rate)`, and for positive population and rate
with randomNumber in [1000, 2000] it lies in
`[population*1000/rate, population*2000/rate]`. -/
theorem estimateGdp_amended (pop : Rat) (code : Option String)
    (rates : List (String × Rat)) (rnd : Int) :
    (jsTruthyStr code = false →
      estimated_gdpOf pop code (exchange_rateOf rates code) rnd = some 0) ∧
    (∀ c, code = some c → c ≠ "" →
      (lookupRate rates c = none ∨ lookupRate rates c = some 0) →
      estimated_gdpOf pop code (exchange_rateOf rates code) rnd = none) ∧
    (∀ c rate, code = some c → c ≠ "" → lookupRate rates c = some rate →
      rate ≠ 0 →
      estimated_gdpOf pop code (exchange_rateOf rates code) rnd
        = some (pop * ((rnd : Rat) / rate)) ∧
      (0 < pop → 0 < rate → (1000 : Int) ≤ rnd → rnd ≤ 2000 →
        pop * 1000 / rate ≤ pop * ((rnd : Rat) / rate) ∧
        pop * ((rnd : Rat) / rate) ≤ pop * 2000 / rate)) := by
  refine ⟨?_, ?_, ?_⟩
  · intro h
    simp [estimated_gdpOf, h]
  · rintro c rfl hc hlook
    have htr : jsTruthyStr (some c) = true := by simp [jsTruthyStr, hc]
    rcases hlook with hlook | hlook <;>
      simp [estimated_gdpOf, exchange_rateOf, htr, hlook]
  · rintro c rate rfl hc hlook hrate
    have htr : jsTruthyStr (some c) = true := by simp [jsTruthyStr, hc]
    have hex : exchange_rateOf rates (some c) = some rate := by
      simp [exchange_rateOf, htr, hlook, hrate]
    refine ⟨by simp [estimated_gdpOf, htr, hex, hrate], ?_⟩
    intro hpop hratepos h1000 h2000
    have hpopnn : (0 : Rat) ≤ pop := le_of_lt hpop
    have hcast1 : (1000 : Rat) ≤ (rnd : Rat) := by exact_mod_cast h1000
    have hcast2 : ((rnd : Rat)) ≤ 2000 := by exact_mod_cast h2000
    constructor
    · rw [← mul_div_assoc]
      gcongr
    · rw [← mul_div_assoc]
      gcongr

/-- Witness for C1 (amended) at population 10, code `USD`, rate 2,
randomNumber 1500: the estimate is `10 * (1500 / 2)` and lies between
`10*1000/2` and `10*2000/2`. -/
theorem estimateGdp_amended_witness :
    estimated_gdpOf 10 (some "USD") (exchange_rateOf [("USD", 2)] (some "USD")) 1500
      = some (10 * ((1500 : Rat) / 2)) ∧
    (10 : Rat) * 1000 / 2 ≤ 10 * ((1500 : Rat) / 2) ∧
    10 * ((1500 : Rat) / 2) ≤ (10 : Rat) * 2000 / 2 := by
  obtain ⟨heq, hrange⟩ :=
    (estimateGdp_amended 10 (some "USD") [("USD", 2)] 1500).2.2 "USD" 2 rfl
      (by decide) rfl (by norm_num)
  obtain ⟨hlo, hhi⟩ := hrange (by norm_num) (by norm_num) (by norm_num) (by norm_num)
  exact ⟨heq, hlo, hhi⟩

/-- The `Math.floor(Math.random() * 1001) + 1000` scalar indeed falls in
[1000, 2000] for every `Math.random()` draw in [0, 1). -/
theorem randomScalar_mem (u : Rat) (h0 : 0 ≤ u) (h1 : u < 1) :
    1000 ≤ randomScalar u ∧ randomScalar u ≤ 2000 := by
  unfold randomScalar
  have hfl0 : (0 : Int) ≤ ⌊u * (2000 - 1000 + 1)⌋ := by
    apply Int.le_floor.mpr
    push_cast
    positivity
  have hflhi : ⌊u * (2000 - 1000 + 1)⌋ < 1001 := by
    apply Int.floor_lt.mpr
    push_cast
    nlinarith
  omega

/-- Witness for `randomScalar_mem` at the draw 1/2 (scalar 1500). -/
theorem randomScalar_mem_witness :
    1000 ≤ randomScalar (1 / 2) ∧ randomScalar (1 / 2) ≤ 2000 :=
  randomScalar_mem (1 / 2) (by norm_num) (by norm_num)

/-! ## Helper lemmas about the upsert engine -/

/-- On the update branch the name column is never written, so the name
sequence of the table is unchanged. -/
theorem upsert_names_update (table : List Row) (nm : String) (rec : NewRecord)
    (now : Nat) (h : ∃ row ∈ table, row.name = nm) :
    (upsert table nm rec now).map Row.name = table.map Row.name := by
  unfold upsert
  rw [if_pos h, List.map_map]
  apply List.map_congr_left
  intro row _
  by_cases hrow : row.name = nm
  · simp [Function.comp, hrow]
  · simp [Function.comp, hrow]

/-- On the insert branch the new row is appended at the end. -/
theorem upsert_names_insert (table : List Row) (nm : String) (rec : NewRecord)
    (now : Nat) (h : ¬ ∃ row ∈ table, row.name = nm) :
    (upsert table nm rec now).map Row.name = table.map Row.name ++ [nm] := by
  unfold upsert
  rw [if_neg h, List.map_append]
  rfl

/-- One upsert preserves the unique-name invariant. -/
theorem upsert_namesNodup (table : List Row) (nm : String) (rec : NewRecord)
    (now : Nat) (h : namesNodup table) : namesNodup (upsert table nm rec now) := by
  unfold namesNodup at h ⊢
  by_cases hex : ∃ row ∈ table, row.name = nm
  · rwa [upsert_names_update table nm rec now hex]
  · rw [upsert_names_insert table nm rec now hex, List.nodup_append]
    refine ⟨h, List.nodup_singleton nm, ?_⟩
    intro a ha hb
    rcases List.mem_singleton.mp hb with rfl
    obtain ⟨row, hrow, hname⟩ := List.mem_map.mp ha
    exact hex ⟨row, hrow, hname⟩

/-- One upsert never removes a name from the table. -/
theorem mem_names_upsert (table : List Row) (nm : String) (rec : NewRecord)
    (now : Nat) (n : String) (h : n ∈ table.map Row.name) :
    n ∈ (upsert table nm rec now).map Row.name := by
  by_cases hex : ∃ row ∈ table, row.name = nm
  · rwa [upsert_names_update table nm rec now hex]
  · rw [upsert_names_insert table nm rec now hex]
    exact List.mem_append_left _ h

/-- The per-record loop preserves the unique-name invariant. -/
theorem runLoop_namesNodup (failsAt : Nat → Bool) (urand : Nat → Rat)
    (now : Nat) (rates : List (String × Rat)) (recs : List RawCountry) :
    ∀ (table : List Row) (i : Nat), namesNodup table →
      namesNodup (runLoop failsAt urand now rates table recs i).1 := by
  induction recs with
  | nil => intro table i h; simpa [runLoop] using h
  | cons r rest ih =>
      intro table i h
      by_cases hf : failsAt i
      · simpa [runLoop, hf] using h
      · cases hn : (mkRecord r rates (randomScalar (urand i)) now).name with
        | none => simpa [runLoop, hf, hn] using h
        | some nm =>
            have := ih (upsert table nm (mkRecord r rates (randomScalar (urand i)) now) now)
              (i + 1) (upsert_namesNodup _ _ _ _ h)
            simpa [runLoop, hf, hn] using this

/-- The per-record loop never removes a name from the table. -/
theorem runLoop_mem_names (failsAt : Nat → Bool) (urand : Nat → Rat)
    (now : Nat) (rates : List (String × Rat)) (recs : List RawCountry)
    (n : String) :
    ∀ (table : List Row) (i : Nat), n ∈ table.map Row.name →
      n ∈ (runLoop failsAt urand now rates table recs i).1.map Row.name := by
  induction recs with
  | nil => intro table i h; simpa [runLoop] using h
  | cons r rest ih =>
      intro table i h
      by_cases hf : failsAt i
      · simpa [runLoop, hf] using h
      · cases hn : (mkRecord r rates (randomScalar (urand i)) now).name with
        | none => simpa [runLoop, hf, hn] using h
        | some nm =>
            have := ih (upsert table nm (mkRecord r rates (randomScalar (urand i)) now) now)
              (i + 1) (mem_names_upsert _ _ _ _ _ h)
            simpa [runLoop, hf, hn] using this

/-- One whole refresh run preserves the unique-name invariant, whatever
its fetch outcomes, failures and random draws. -/
theorem applyRun_namesNodup (table : List Row) (e : RunEnv)
    (h : namesNodup table) : namesNodup (applyRun table e) := by
  unfold applyRun postCountriesModel
  cases e.countriesFetch with
  | transportError => simpa using h
  | response cs cbody =>
    cases e.ratesFetch with
    | transportError => simpa using h
    | response rs rbody =>
      cases cbody with
      | parseError => simpa using h
      | nonArray =>
          cases rbody with
          | parseError => simpa using h
          | rates tbl => by_cases hr : e.renderFails <;> simpa [hr] using h
      | arr recs =>
          cases rbody with
          | parseError => simpa using h
          | rates tbl =>
              have := runLoop_namesNodup e.failsAt e.urand e.now tbl recs table 0 h
              by_cases hl : (runLoop e.failsAt e.urand e.now tbl table recs 0).2 <;>
                by_cases hr : e.renderFails <;> simpa [hl, hr] using this

/-- One whole refresh run never removes a name from the table. -/
theorem applyRun_mem_names (table : List Row) (e : RunEnv) (n : String)
    (h : n ∈ table.map Row.name) : n ∈ (applyRun table e).map Row.name := by
  unfold applyRun postCountriesModel
  cases e.countriesFetch with
  | transportError => simpa using h
  | response cs cbody =>
    cases e.ratesFetch with
    | transportError => simpa using h
    | response rs rbody =>
      cases cbody with
      | parseError => simpa using h
      | nonArray =>
          cases rbody with
          | parseError => simpa using h
          | rates tbl => by_cases hr : e.renderFails <;> simpa [hr] using h
      | arr recs =>
          cases rbody with
          | parseError => simpa using h
          | rates tbl =>
              have := runLoop_mem_names e.failsAt e.urand e.now tbl recs n table 0 h
              by_cases hl : (runLoop e.failsAt e.urand e.now tbl table recs 0).2 <;>
                by_cases hr : e.renderFails <;> simpa [hl, hr] using this

/-- In a duplicate-free table a name filter returns at most one row. -/
theorem filter_name_length_le_one (table : List Row) (n : String)
    (h : namesNodup table) :
    (table.filter (fun r => r.name == n)).length ≤ 1 := by
  induction table with
  | nil => simp
  | cons row rest ih =>
      unfold namesNodup at h ih
      simp only [List.map_cons, List.nodup_cons] at h
      by_cases hn : row.name == n
      · have hrest : rest.filter (fun r => r.name == n) = [] := by
          rw [List.filter_eq_nil_iff]
          intro r hr hcon
          apply h.1
          have : r.name = n := by simpa using hcon
          have : r.name = row.name := by
            rw [this]
            exact (eq_of_beq hn).symm
          rw [← this]
          exact List.mem_map_of_mem Row.name hr
        simp [hn, hrest]
      · simpa [hn] using ih h.2

/-! ## Claim theorems about the upsert engine -/

/-- C4.  When an upsert hits an existing row with the same name, the result
contains that row with every mutable field (capital, region, population,
currency_code, exchange_rate, estimated_gdp, flag_url, last_refreshed_at)
overwritten by the new value and `created_at` kept at its original value;
rows with other names are untouched. -/
theorem upsert_conflict_overwrites (table : List Row) (nm : String)
    (rec : NewRecord) (now : Nat) (row : Row) (hmem : row ∈ table)
    (hname : row.name = nm) :
    ({ name := nm
       capital := rec.capital
       region := rec.region
       population := rec.population
       currency_code := rec.currency_code
       exchange_rate := rec.exchange_rate
       estimated_gdp := rec.estimated_gdp
       flag_url := rec.flag_url
       last_refreshed_at := rec.last_refreshed_at
       created_at := row.created_at } : Row) ∈ upsert table nm rec now ∧
    ∀ other ∈ table, other.name ≠ nm → other ∈ upsert table nm rec now := by
  have hex : ∃ r ∈ table, r.name = nm := ⟨row, hmem, hname⟩
  unfold upsert
  rw [if_pos hex]
  constructor
  · have h := List.mem_map_of_mem
      (fun r : Row =>
        if r.name = nm then
          { name := nm
            capital := rec.capital
            region := rec.region
            population := rec.population
            currency_code := rec.currency_code
            exchange_rate := rec.exchange_rate
            estimated_gdp := rec.estimated_gdp
            flag_url := rec.flag_url
            last_refreshed_at := rec.last_refreshed_at
            created_at := r.created_at }
        else r) hmem
    simpa [hname] using h
  · intro other hother hne
    have h := List.mem_map_of_mem
      (fun r : Row =>
        if r.name = nm then
          { name := nm
            capital := rec.capital
            region := rec.region
            population := rec.population
            currency_code := rec.currency_code
            exchange_rate := rec.exchange_rate
            estimated_gdp := rec.estimated_gdp
            flag_url := rec.flag_url
            last_refreshed_at := rec.last_refreshed_at
            created_at := r.created_at }
        else r) hother
    simpa [hne] using h

/-- Witness for C4: replaying France with new values overwrites every
mutable field of the France row, keeps its original `created_at`, and
leaves the Ghana row untouched. -/
theorem upsert_conflict_overwrites_witness :
    ({ name := "France"
       capital := recFrance.capital
       region := recFrance.region
       population := recFrance.population
       currency_code := recFrance.currency_code
       exchange_rate := recFrance.exchange_rate
       estimated_gdp := recFrance.estimated_gdp
       flag_url := recFrance.flag_url
       last_refreshed_at := recFrance.last_refreshed_at
       created_at := rowFrance.created_at } : Row)
      ∈ upsert [rowFrance, rowGhana] "France" recFrance 9 ∧
    rowGhana ∈ upsert [rowFrance, rowGhana] "France" recFrance 9 := by
  have h := upsert_conflict_overwrites [rowFrance, rowGhana] "France"
    recFrance 9 rowFrance (by simp) rfl
  exact ⟨h.1, h.2 rowGhana (by simp) (by simp [rowGhana])⟩

/-- C5.  One-row-per-name invariant: starting from a duplicate-free table,
any sequence of refresh runs — each of which may upsert any record set,
including the same name several times within one run — leaves the name
column duplicate-free, and a lookup by any name returns at most one row. -/
theorem refresh_one_row_per_name (table : List Row) (envs : List RunEnv)
    (h : namesNodup table) :
    namesNodup (envs.foldl applyRun table) ∧
    ∀ n, ((envs.foldl applyRun table).filter
      (fun r => r.name == n)).length ≤ 1 := by
  have hnodup : namesNodup (envs.foldl applyRun table) := by
    induction envs generalizing table with
    | nil => simpa using h
    | cons e rest ih => exact ih (applyRun table e) (applyRun_namesNodup table e h)
  exact ⟨hnodup, fun n => filter_name_length_le_one _ n hnodup⟩

/-- Witness for C5: one run that upserts France twice (insert, then
conflict update) still yields a duplicate-free table, and the lookup for
France returns at most one row. -/
theorem refresh_one_row_per_name_witness :
    namesNodup ([envFranceTwice].foldl applyRun []) ∧
    (([envFranceTwice].foldl applyRun []).filter
      (fun r => r.name == "France")).length ≤ 1 := by
  have h := refresh_one_row_per_name [] [envFranceTwice] (by simp [namesNodup])
  exact ⟨h.1, h.2 "France"⟩

/-- C7.  A refresh run never deletes a row: every country name present in
the store before a run is still present after it, whatever the run fetched
(in particular when the name is absent from the fetched data). -/
theorem refresh_never_deletes (table : List Row) (e : RunEnv) (n : String)
    (h : ∃ row ∈ table, row.name = n) :
    ∃ row ∈ applyRun table e, row.name = n := by
  obtain ⟨row, hrow, hname⟩ := h
  have hmem : n ∈ table.map Row.name := by
    rw [← hname]
    exact List.mem_map_of_mem Row.name hrow
  have := applyRun_mem_names table e n hmem
  obtain ⟨row', hrow', hname'⟩ := List.mem_map.mp this
  exact ⟨row', hrow', hname'⟩

/-- Witness for C7: a refresh whose fetched directory is empty keeps the
pre-existing France row. -/
theorem refresh_never_deletes_witness :
    ∃ row ∈ applyRun [rowFrance] envEmptyFetch, row.name = "France" :=
  refresh_never_deletes [rowFrance] envEmptyFetch "France"
    ⟨rowFrance, by simp, rfl⟩

/-! ## Claim theorems about the refresh loop and orchestrator -/

/-- If every record before position `pre.length` succeeds and the execute at
that position throws, the loop stops there: the table is exactly the one
obtained by committing the prefix, and the loop reports failure. -/
theorem runLoop_fail_after_prefix (failsAt : Nat → Bool) (urand : Nat → Rat)
    (now : Nat) (rates : List (String × Rat)) (pre : List RawCountry)
    (bad : RawCountry) (post : List RawCountry) :
    ∀ (table : List Row) (i0 : Nat),
      (∀ j, j < pre.length → failsAt (i0 + j) = false) →
      (∀ r ∈ pre, (RawCountry.name r).isSome = true) →
      failsAt (i0 + pre.length) = true →
      runLoop failsAt urand now rates table (pre ++ bad :: post) i0
        = ((runLoop failsAt urand now rates table pre i0).1, false)
      ∧ (runLoop failsAt urand now rates table pre i0).2 = true := by
  induction pre with
  | nil =>
      intro table i0 _ _ hbad
      simp only [List.length_nil, Nat.add_zero] at hbad
      simp [runLoop, hbad]
  | cons r pre' ih =>
      intro table i0 hok hnames hbad
      have hf0 : failsAt i0 = false := by
        have := hok 0 (by simp)
        simpa using this
      obtain ⟨nm, hnm⟩ := Option.isSome_iff_exists.mp
        (hnames r (List.mem_cons_self r pre'))
      have hmk : (mkRecord r rates (randomScalar (urand i0)) now).name = some nm := by
        simp [mkRecord, hnm]
      have hok' : ∀ j, j < pre'.length →
          failsAt (i0 + 1 + j) = false := by
        intro j hj
        rw [show i0 + 1 + j = i0 + (j + 1) by omega]
        exact hok (j + 1) (by simpa using Nat.succ_lt_succ hj)
      have hbad' : failsAt (i0 + 1 + pre'.length) = true := by
        rw [show i0 + 1 + pre'.length = i0 + (r :: pre').length by simp; omega]
        exact hbad
      have := ih (upsert table nm (mkRecord r rates (randomScalar (urand i0)) now) now)
        (i0 + 1) hok' (fun r' hr' => hnames r' (List.mem_cons_of_mem r hr')) hbad'
      simpa [runLoop, hf0, hmk] using this

/-- C8.  Records are processed sequentially in source order with no batch
transaction: when the fetched directory is `pre ++ bad :: post`, every
record of `pre` succeeds and the per-record execute at position
`pre.length` throws, the run ends with exactly the prefix committed
(records after the failure are never processed) and the caller observes
the failure outcome. -/
theorem refresh_fail_partial_commit (cs rs : Nat) (rates : List (String × Rat))
    (failsAt : Nat → Bool) (urand : Nat → Rat) (now : Nat) (renderFails : Bool)
    (table : List Row) (pre : List RawCountry) (bad : RawCountry)
    (post : List RawCountry)
    (h1 : ∀ j, j < pre.length → failsAt j = false)
    (h2 : ∀ r ∈ pre, (RawCountry.name r).isSome = true)
    (h3 : failsAt pre.length = true) :
    postCountriesModel table
      ⟨.response cs (.arr (pre ++ bad :: post)), .response rs (.rates rates),
       failsAt, urand, now, renderFails⟩
      = ((runLoop failsAt urand now rates table pre 0).1, .failure)
    ∧ (runLoop failsAt urand now rates table pre 0).2 = true := by
  have h := runLoop_fail_after_prefix failsAt urand now rates pre bad post table 0
    (by simpa using h1) h2 (by simpa using h3)
  refine ⟨?_, h.2⟩
  simp [postCountriesModel, h.1]

/-- Witness for C8: the very first execute throws, so an initially empty
table stays empty and the run reports failure. -/
theorem refresh_fail_partial_commit_witness :
    postCountriesModel []
      ⟨.response 200 (.arr [rawFrance]), .response 200 (.rates []),
       fun _ => true, fun _ => 0, 5, false⟩
      = ([], .failure) := by
  have h := refresh_fail_partial_commit 200 200 [] (fun _ => true) (fun _ => 0)
    5 false [] [] rawFrance []
    (by intro j hj; simp at hj)
    (by intro r hr; simp at hr)
    rfl
  simpa [runLoop] using h.1

/-- C3 counterexample.  The code never inspects the HTTP status: a run
whose country-directory fetch resolves with status 404 and a JSON error
object as body (not an array, so the loop is skipped) inserts no row —
but the caller observes the 201 success outcome, not an upstream-fetch
failure, refuting the claim for the non-2xx case. -/
theorem fetch_failure_abort_counterexample :
    postCountriesModel []
      ⟨.response 404 CountriesBody.nonArray,
       .response 200 (.rates [("USD", 1)]),
       fun _ => false, fun _ => 0, 5, false⟩
      = ([], .success) := rfl

/-- C3 as amended.  If the country-directory fetch fails with a transport
error, or its body fails to parse, the run inserts or updates no row and
the caller observes the distinct failure outcome.  A non-2xx HTTP response
is not detected: the status is never read, and when such a response
carries a JSON body that is not an array the run still writes no rows but
reports success (provided the summary render does not throw). -/
theorem fetch_failure_abort (table : List Row) (rf : Fetch RatesBody)
    (failsAt : Nat → Bool) (urand : Nat → Rat) (now : Nat)
    (renderFails : Bool) (cs rs : Nat) (rbody : RatesBody)
    (rates : List (String × Rat)) :
    postCountriesModel table
      ⟨.transportError, rf, failsAt, urand, now, renderFails⟩
      = (table, .failure) ∧
    postCountriesModel table
      ⟨.response cs .parseError, .response rs rbody,
       failsAt, urand, now, renderFails⟩
      = (table, .failure) ∧
    postCountriesModel table
      ⟨.response cs .nonArray, .response rs (.rates rates),
       failsAt, urand, now, false⟩
      = (table, .success) := by
  refine ⟨rfl, ?_, rfl⟩
  cases rbody <;> rfl

/-! ## Claim theorems about GDP-descending orderings -/

/-- The MySQL descending comparator is transitive. -/
theorem gdpDescLe_trans (a b c : Row) (h1 : gdpDescLe a b = true)
    (h2 : gdpDescLe b c = true) : gdpDescLe a c = true := by
  unfold gdpDescLe at h1 h2 ⊢
  cases ha : a.estimated_gdp <;> cases hb : b.estimated_gdp <;>
    cases hc : c.estimated_gdp <;> simp_all
  linarith

/-- The MySQL descending comparator is total. -/
theorem gdpDescLe_total (a b : Row) :
    (gdpDescLe a b || gdpDescLe b a) = true := by
  unfold gdpDescLe
  cases ha : a.estimated_gdp <;> cases hb : b.estimated_gdp <;> simp_all
  exact le_total _ _

/-- The sorted listing is pairwise ordered by the comparator. -/
theorem sortGdpDesc_pairwise (rows : List Row) :
    List.Pairwise (fun a b => gdpDescLe a b = true) (sortGdpDesc rows) :=
  List.sorted_mergeSort gdpDescLe_trans gdpDescLe_total rows

/-- The comparator implies the ordering property C6 states. -/
theorem gdpOrdered_of_gdpDescLe (a b : Row) (h : gdpDescLe a b = true) :
    gdpOrdered a.estimated_gdp b.estimated_gdp := by
  unfold gdpDescLe at h
  unfold gdpOrdered
  cases ha : a.estimated_gdp <;> cases hb : b.estimated_gdp <;> simp_all

/-- C6.  Every GDP-descending ordering the system produces — the
`sort=gdp_desc` listing of GET /countries (for any region/currency
filters) and the top-5 projection used for the summary — places all rows
with non-null `estimated_gdp` before all rows with null `estimated_gdp`,
and the non-null values appear in non-increasing order (pairwise
`gdpOrdered` states exactly these two facts for every earlier/later
pair). -/
theorem gdp_desc_orderings (table : List Row) (region currency : Option String) :
    List.Pairwise (fun a b => gdpOrdered a.estimated_gdp b.estimated_gdp)
      (getCountriesModel table region currency (some "gdp_desc")) ∧
    List.Pairwise (fun p q => gdpOrdered p.2 q.2) (top5Of table) := by
  constructor
  · have h := sortGdpDesc_pairwise
      (table.filter fun r =>
        (if jsTruthyStr region then r.region == region else true) &&
        (if jsTruthyStr currency then r.currency_code == currency else true))
    have h' := h.imp (fun hab => gdpOrdered_of_gdpDescLe _ _ hab)
    simpa [getCountriesModel] using h'
  · have h := sortGdpDesc_pairwise table
    have htake := h.sublist (List.take_sublist 5 (sortGdpDesc table))
    have h' := htake.imp (fun hab => gdpOrdered_of_gdpDescLe _ _ hab)
    unfold top5Of
    exact (List.pairwise_map).mpr h'

/-! ## Claim theorem about the status endpoint -/

/-- C9.  `getStatus` dereferences the first result row unconditionally:
on a non-empty table it returns the row count and the first row's
`last_refreshed_at`, but on an empty table it throws (property access on
`undefined`) instead of returning a response — the error branch is
avoided exactly when the store is non-empty. -/
theorem getStatus_unguarded (table : List Row) :
    (table = [] → getStatusModel table = .error "TypeError") ∧
    (∀ r rest, table = r :: rest →
      getStatusModel table = .ok (table.length, r.last_refreshed_at)) := by
  constructor
  · rintro rfl
    rfl
  · rintro r rest rfl
    rfl

/-- Witness for C9: the empty store throws, a one-row store reports count
1 and that row's refresh time. -/
theorem getStatus_unguarded_witness :
    getStatusModel [] = .error "TypeError" ∧
    getStatusModel [rowFrance]
      = .ok ([rowFrance].length, rowFrance.last_refreshed_at) :=
  ⟨(getStatus_unguarded []).1 rfl,
   (getStatus_unguarded [rowFrance]).2 rowFrance [] rfl⟩
